import Mathlib

/-!
Shallow embedding of the sandstorm witness-generation layer:
the `binary` crate (instruction-word decoding, memory-dump parsing and the
SHARP public-input encoding) and the `builtins` crate's ECDSA instance-trace
builder.  Rust panics (`unwrap`, `expect`, `assert!`, `unimplemented!`,
`debug_assert!`) are modelled as `Option`/`Except` failures.  External
collaborators that live outside the embedded sources (the Starkware curve
arithmetic, field conversions, the digest function) are abstracted into
explicit parameters, as the specification treats them as swappable
primitives.
-/

namespace Binary

/-- Prime modulus of the Stark base field used by this repository
(the field named `p3618502788666131213697322783095070105623107215331596699973092056135872020481`
in the source imports): `2 ^ 251 + 17 * 2 ^ 192 + 1`. -/
def P_STARK : ℕ := 3618502788666131213697322783095070105623107215331596699973092056135872020481

/-- Word offset of `off_DST`. -/
def OFF_DST_BIT_OFFSET : ℕ := 0

/-- Word offset of `off_OP0`. -/
def OFF_OP0_BIT_OFFSET : ℕ := 16

/-- Word offset of `off_OP1`. -/
def OFF_OP1_BIT_OFFSET : ℕ := 32

/-- Word offset of the instruction flags. -/
def FLAGS_BIT_OFFSET : ℕ := 48

/-- Mask for word offsets (16 bits each). -/
def OFF_MASK : ℕ := 0xFFFF

/-- Half of the 16-bit offset range, the bias subtracted from offsets. -/
def HALF_OFFSET : ℕ := 2 ^ 15

/-- Cairo instruction flag (source enum `Flag`, discriminants 0..15). -/
inductive Flag
  | DstReg
  | Op0Reg
  | Op1Imm
  | Op1Fp
  | Op1Ap
  | ResAdd
  | ResMul
  | PcJumpAbs
  | PcJumpRel
  | PcJnz
  | ApAdd
  | ApAdd1
  | OpcodeCall
  | OpcodeRet
  | OpcodeAssertEq
  | Zero
deriving DecidableEq

/-- Numeric discriminant of a flag, exactly the `#[repr(u16)]` values of the
source enum. -/
def Flag.toNat : Flag → ℕ
  | .DstReg => 0
  | .Op0Reg => 1
  | .Op1Imm => 2
  | .Op1Fp => 3
  | .Op1Ap => 4
  | .ResAdd => 5
  | .ResMul => 6
  | .PcJumpAbs => 7
  | .PcJumpRel => 8
  | .PcJnz => 9
  | .ApAdd => 10
  | .ApAdd1 => 11
  | .OpcodeCall => 12
  | .OpcodeRet => 13
  | .OpcodeAssertEq => 14
  | .Zero => 15

/-- Cairo flag group (source enum `FlagGroup`). -/
inductive FlagGroup
  | DstReg
  | Op0Reg
  | Op1Src
  | ResLogic
  | PcUpdate
  | ApUpdate
  | Opcode
deriving DecidableEq

/-- A Cairo word: a 256-bit value (the source stores it as a `U256`; here the
numeric value is kept as a natural number). -/
structure Word where
  val : ℕ
deriving DecidableEq

/-- `Word::get_flag`: bit `FLAGS_BIT_OFFSET + flag` of the word. -/
def Word.get_flag (w : Word) (f : Flag) : Bool :=
  w.val.testBit (FLAGS_BIT_OFFSET + f.toNat)

/-- `Word::get_off_dst`: the 16-bit field at bit offset 0. -/
def Word.get_off_dst (w : Word) : ℕ :=
  (w.val >>> OFF_DST_BIT_OFFSET) &&& OFF_MASK

/-- `Word::get_off_op0`: the 16-bit field at bit offset 16. -/
def Word.get_off_op0 (w : Word) : ℕ :=
  (w.val >>> OFF_OP0_BIT_OFFSET) &&& OFF_MASK

/-- `Word::get_off_op1`: the 16-bit field at bit offset 32. -/
def Word.get_off_op1 (w : Word) : ℕ :=
  (w.val >>> OFF_OP1_BIT_OFFSET) &&& OFF_MASK

/-- `Word::get_flag_group`: combine the individual flags of a group into a
small integer with binary positional weights. -/
def Word.get_flag_group (w : Word) : FlagGroup → ℕ
  | .DstReg => (w.get_flag .DstReg).toNat
  | .Op0Reg => (w.get_flag .Op0Reg).toNat
  | .Op1Src =>
      (w.get_flag .Op1Imm).toNat + (w.get_flag .Op1Fp).toNat * 2 +
        (w.get_flag .Op1Ap).toNat * 4
  | .ResLogic => (w.get_flag .ResAdd).toNat + (w.get_flag .ResMul).toNat * 2
  | .PcUpdate =>
      (w.get_flag .PcJumpAbs).toNat + (w.get_flag .PcJumpRel).toNat * 2 +
        (w.get_flag .PcJnz).toNat * 4
  | .ApUpdate => (w.get_flag .ApAdd).toNat + (w.get_flag .ApAdd1).toNat * 2
  | .Opcode =>
      (w.get_flag .OpcodeCall).toNat + (w.get_flag .OpcodeRet).toNat * 2 +
        (w.get_flag .OpcodeAssertEq).toNat * 4

/-- `Word::get_dst_addr`: biased offset plus the selected base register.
The source computes this in `usize`; callers guarantee no underflow
(the claims below hypothesise `HALF_OFFSET ≤ off + base`). -/
def Word.get_dst_addr (w : Word) (ap fp : ℕ) : ℕ :=
  w.get_off_dst + (if w.get_flag .DstReg then fp else ap) - HALF_OFFSET

/-- `Word::get_op0_addr`. -/
def Word.get_op0_addr (w : Word) (ap fp : ℕ) : ℕ :=
  w.get_off_op0 + (if w.get_flag .Op0Reg then fp else ap) - HALF_OFFSET

/-- The memory table: a dense array of optional words indexed by address
(source type `Memory<F>`, a `Vec<Option<Word<F>>>`). -/
def Mem : Type := List (Option Word)

/-- Fetch the word stored at `addr`: the source indexes the vector (panic when
out of bounds) and `unwrap`s the option (panic when absent); both failure
modes are `none` here. -/
def Mem.read (mem : Mem) (addr : ℕ) : Option Word :=
  (List.get? mem addr).join

section WordModel

variable {F : Type} [Field F]

/-- `Word::get_dst`: read the word at `dst_addr` and convert it into a field
element; `intoFelt` abstracts `Word::into_felt` (a `BigUint`-to-field cast). -/
def Word.get_dst (intoFelt : ℕ → F) (w : Word) (ap fp : ℕ) (mem : Mem) : Option F :=
  (mem.read (w.get_dst_addr ap fp)).map fun v => intoFelt v.val

/-- `Word::get_op1_addr`: operand-1 address, depending on the Op1Src group;
the indirect case (group 0) reads the word stored at `op0_addr` and uses its
numeric value as an address.  Any other group value is `unreachable!`. -/
def Word.get_op1_addr (w : Word) (pc ap fp : ℕ) (mem : Mem) : Option ℕ :=
  let op1_src := w.get_flag_group .Op1Src
  if op1_src = 0 then
    (mem.read (w.get_op0_addr ap fp)).map fun v =>
      v.val + w.get_off_op1 - HALF_OFFSET
  else if op1_src = 1 then some (w.get_off_op1 + pc - HALF_OFFSET)
  else if op1_src = 2 then some (w.get_off_op1 + fp - HALF_OFFSET)
  else if op1_src = 4 then some (w.get_off_op1 + ap - HALF_OFFSET)
  else none

/-- `Word::get_res`: the `res` value of an instruction word.  In the
jump-if-nonzero case (PcUpdate group 4) with `ResLogic = 0`, `Opcode = 0` and
`ApUpdate ≠ 1`, `res` holds `dst⁻¹` (`inverse().unwrap_or_else(F::zero)`;
Lean's field inverse already maps `0` to `0`).  PcUpdate groups 0, 1, 2
combine `op0`/`op1` through the ResLogic group.  Every other combination is
`unreachable!`, and unresolved memory reads are failures. -/
def Word.get_res (intoFelt : ℕ → F) (w : Word) (pc ap fp : ℕ) (mem : Mem) : Option F :=
  let pc_update := w.get_flag_group .PcUpdate
  let res_logic := w.get_flag_group .ResLogic
  if pc_update = 4 then
    if res_logic = 0 ∧ w.get_flag_group .Opcode = 0 ∧
        w.get_flag_group .ApUpdate ≠ 1 then
      (w.get_dst intoFelt ap fp mem).map fun d => d⁻¹
    else none
  else if pc_update = 0 ∨ pc_update = 1 ∨ pc_update = 2 then
    match mem.read (w.get_op0_addr ap fp), w.get_op1_addr pc ap fp mem with
    | some op0w, some op1a =>
        match mem.read op1a with
        | some op1w =>
            let op0 : F := intoFelt op0w.val
            let op1 : F := intoFelt op1w.val
            if res_logic = 0 then some op1
            else if res_logic = 1 then some (op0 + op1)
            else if res_logic = 2 then some (op0 * op1)
            else none
        | none => none
    | _, _ => none
  else none

end WordModel

/-- `Word::new`: wraps a 256-bit value; the source `debug_assert!`s that the
value is strictly below the field modulus, modelled as a failure. -/
def Word.new (modulus word : ℕ) : Option Word :=
  if word < modulus then some ⟨word⟩ else none

/-- Failure modes of the memory-dump reader. -/
inductive MemoryError
  | malformed
  | valueOutOfRange
deriving DecidableEq

/-- Little-endian byte-list decoding. -/
def bytesToNatLE : List ℕ → ℕ
  | [] => 0
  | b :: bs => b + 256 * bytesToNatLE bs

/-- Little-endian encoding of `n` in exactly `k` bytes. -/
def natToBytesLE : ℕ → ℕ → List ℕ
  | 0, _ => []
  | k + 1, n => n % 256 :: natToBytesLE k (n / 256)

/-- One record of the memory dump: an 8-byte little-endian address followed by
a `fieldBytes`-byte little-endian value. -/
def encodeRecord (fieldBytes : ℕ) (r : ℕ × ℕ) : List ℕ :=
  natToBytesLE 8 r.1 ++ natToBytesLE fieldBytes r.2

/-- A memory dump holding the given records in order. -/
def encodeRecords (fieldBytes : ℕ) (rs : List (ℕ × ℕ)) : List ℕ :=
  rs.flatMap (encodeRecord fieldBytes)

/-- The read loop of `Memory::from_reader`: while data is left, read an
8-byte address and a `fieldBytes`-byte value (a truncated record is a fatal
error), range-check the value through `Word::new`, and accumulate
`(address, word)` pairs.  The loop is compiled with explicit fuel; each
iteration consumes `8 + fieldBytes > 0` bytes, so fuel equal to the stream
length never runs out. -/
def Memory.read_loop (modulus fieldBytes : ℕ) :
    ℕ → List ℕ → Except MemoryError (List (ℕ × Word))
  | 0, bs => if bs.isEmpty then .ok [] else .error .malformed
  | fuel + 1, bs =>
      if bs.isEmpty then .ok []
      else if bs.length < 8 + fieldBytes then .error .malformed
      else
        let address := bytesToNatLE (bs.take 8)
        let word := bytesToNatLE ((bs.drop 8).take fieldBytes)
        match Word.new modulus word with
        | none => .error .valueOutOfRange
        | some w =>
            (Memory.read_loop modulus fieldBytes fuel (bs.drop (8 + fieldBytes))).map
              (fun rest => (address, w) :: rest)

/-- The table-building phase of `Memory::from_reader`: `max_address` starts at
`0` and is the running maximum of the addresses seen; the dense table has
length `max_address + 1`, every slot starts as `None`, and each parsed pair is
written at its address in order. -/
def Memory.buildTable (pairs : List (ℕ × Word)) : List (Option Word) :=
  let max_address := pairs.foldl (fun m p => max m p.1) 0
  pairs.foldl (fun mem p => mem.set p.1 (some p.2))
    (List.replicate (max_address + 1) none)

/-- `Memory::from_reader`: parse the sparse byte stream, then build the dense
table. -/
def Memory.from_reader (modulus fieldBytes : ℕ) (bs : List ℕ) :
    Except MemoryError (List (Option Word)) :=
  (Memory.read_loop modulus fieldBytes bs.length bs).map Memory.buildTable

/-- Byte width of a Stark-field element in the memory dump
(`field_bytes::<Fp>()` for the 252-bit modulus). -/
def STARK_FIELD_BYTES : ℕ := 32

/-- Source enum `Layout`. -/
inductive Layout
  | Plain
  | Small
  | Dex
  | Recursive
  | Starknet
  | RecursiveLargeOutput
  | AllSolidity
  | StarknetWithKeccak
deriving DecidableEq

/-- The unique SHARP code of the Starknet layout. -/
def Layout.SHARP_CODE_STARKNET : ℕ := 8319381555716711796

/-- `Layout::sharp_code`: only the Starknet variant has a code; every other
variant hits `unimplemented!`. -/
def Layout.sharp_code : Layout → Option ℕ
  | .Starknet => some Layout.SHARP_CODE_STARKNET
  | _ => none

/-- `Layout::from_sharp_code`: only the Starknet code maps back; every other
code hits `unimplemented!`. -/
def Layout.from_sharp_code (code : ℕ) : Option Layout :=
  if code = Layout.SHARP_CODE_STARKNET then some Layout.Starknet else none

/-- Source struct `Segment`. -/
structure Segment where
  begin_addr : ℕ
  stop_ptr : ℕ
deriving DecidableEq

/-- Source struct `MemoryEntry<T>` with a field-element value. -/
structure MemoryEntry (F : Type) where
  address : ℕ
  value : F
deriving DecidableEq

/-- Source struct `CairoAuxInput<F>`. -/
structure CairoAuxInput (F : Type) where
  log_n_steps : ℕ
  layout : Layout
  initial_ap : F
  initial_pc : F
  final_ap : F
  final_pc : F
  range_check_min : ℕ
  range_check_max : ℕ
  public_memory_padding : MemoryEntry F
  program_segment : Segment
  execution_segment : Segment
  output_segment : Option Segment
  pedersen_segment : Option Segment
  rc_segment : Option Segment
  ecdsa_segment : Option Segment
  bitwise_segment : Option Segment
  ec_op_segment : Option Segment
  poseidon_segment : Option Segment
  public_memory : List (MemoryEntry F)

/-- The final `.map(Option::unwrap).collect()` of `serialize_sharp`: succeeds
only when no gap is left unfilled. -/
def unwrapAll : List (Option ℕ) → Option (List ℕ)
  | [] => some []
  | none :: _ => none
  | some x :: rest => (unwrapAll rest).map (fun l => x :: l)

section Serialize

variable {F : Type}

/-- `CairoAuxInput::serialize_sharp`.  `fpToNat` abstracts the
field-to-`U256` conversion used for the padding value, `natToF` the
address-to-field cast used when hashing public memory, and `hashFn` the
digest `D` together with `hash_elements` and the big-endian digest-to-`U256`
conversion.  The base block is the source's `base_vals` written by index
0..13, the layout block is the Starknet `vals` written by index 0..10
(`unimplemented!` for every other layout), and the page block holds the main
page's entry count and hash. -/
def CairoAuxInput.serialize_sharp (fpToNat : F → ℕ) (natToF : ℕ → F)
    (hashFn : List F → ℕ) (aux : CairoAuxInput F) : Option (List ℕ) :=
  match aux.layout.sharp_code with
  | none => none
  | some code =>
    let base_vals : List (Option ℕ) :=
      [some aux.log_n_steps, some aux.range_check_min, some aux.range_check_max,
       some code,
       some aux.program_segment.begin_addr, some aux.program_segment.stop_ptr,
       some aux.execution_segment.begin_addr, some aux.execution_segment.stop_ptr,
       aux.output_segment.map Segment.begin_addr,
       aux.output_segment.map Segment.stop_ptr,
       aux.pedersen_segment.map Segment.begin_addr,
       aux.pedersen_segment.map Segment.stop_ptr,
       aux.rc_segment.map Segment.begin_addr,
       aux.rc_segment.map Segment.stop_ptr]
    let layout_vals : Option (List (Option ℕ)) :=
      match aux.layout with
      | .Starknet =>
          some [aux.ecdsa_segment.map Segment.begin_addr,
                aux.ecdsa_segment.map Segment.stop_ptr,
                aux.bitwise_segment.map Segment.begin_addr,
                aux.bitwise_segment.map Segment.stop_ptr,
                aux.ec_op_segment.map Segment.begin_addr,
                aux.ec_op_segment.map Segment.stop_ptr,
                aux.poseidon_segment.map Segment.begin_addr,
                aux.poseidon_segment.map Segment.stop_ptr,
                some aux.public_memory_padding.address,
                some (fpToNat aux.public_memory_padding.value),
                some 1]
      | _ => none
    match layout_vals with
    | none => none
    | some lvals =>
      let pairs : List F :=
        aux.public_memory.flatMap fun e => [natToF e.address, e.value]
      let main_page : List (Option ℕ) :=
        [some aux.public_memory.length, some (hashFn pairs)]
      unwrapAll (base_vals ++ lvals ++ main_page)

end Serialize

end Binary

namespace Ecdsa

/-- Bit size of the Stark base-field modulus (`Fp::MODULUS_BIT_SIZE`). -/
def FP_MODULUS_BIT_SIZE : ℕ := 252

/-- Source struct `Signature` (256-bit `r` and `w` components). -/
structure Signature where
  r : ℕ
  w : ℕ
deriving DecidableEq

/-- Source struct `EcdsaInstance` (all 256-bit values kept as naturals). -/
structure EcdsaInstance where
  index : ℕ
  pubkey_x : ℕ
  message : ℕ
  signature : Signature
deriving DecidableEq

/-- The out-of-scope collaborators of the ECDSA builder, abstracted: curve
points form an additive group `P`, `xcoord` is the affine x-coordinate into
the base field `F`, `slope` is `calculate_slope`'s value (the chord/tangent
slope, defined whenever the x-coordinates differ or the points coincide),
`ysFromX` is `get_ys_from_x_unchecked`, `mkPoint` is `new_unchecked`,
`gen`/`shift` are `Curve::GENERATOR` and `SHIFT_POINT`, and the four
conversion maps are the `BigUint` casts into and out of the base field `F`
and the scalar field `K`. -/
structure EcdsaCtx (P F K : Type) where
  xcoord : P → F
  slope : P → P → F
  ysFromX : F → Option (F × F)
  mkPoint : F → F → P
  gen : P
  shift : P
  fpOfNat : ℕ → F
  fpToNat : F → ℕ
  frOfNat : ℕ → K
  frToNat : K → ℕ

/-- Source struct `EcMultPartialStep`. -/
structure EcMultPartialStep (P F : Type) where
  partial_sum : P
  fixed_point : P
  suffix : F
  slope : F
  x_diff_inv : F
deriving DecidableEq

/-- Source struct `DoublingStep`. -/
structure DoublingStep (P F : Type) where
  point : P
  slope : F
deriving DecidableEq

/-- Failure modes of the trace builder (the source's panics). -/
inductive EcdsaError
  | divisionByZero
  | notOnCurve
  | invalidSignature
  | degenerateEcOp
  | scalarOutOfRange
  | internalAssert
deriving DecidableEq

section Builder

variable {P F K : Type} [AddCommGroup P] [DecidableEq P] [Field F] [DecidableEq F]
variable [Field K] [DecidableEq K]

/-- The while loop of `mimic_ec_mult_air`, compiled with explicit fuel: while
`m ≠ 0`, fail when the partial sum and the fixed point share an x-coordinate,
otherwise add the point on a set bit, double the point and halve `m`.  The
caller passes fuel `FP_MODULUS_BIT_SIZE`, enough for every scalar accepted by
the range guard, so the fuel-exhausted branch (where `m` has already reached
`0`) coincides with the loop exit. -/
def mimic_loop (ctx : EcdsaCtx P F K) : ℕ → ℕ → P → P → Option P
  | 0, m, _, partial_sum => if m = 0 then some partial_sum else none
  | fuel + 1, m, point, partial_sum =>
      if m = 0 then some partial_sum
      else if ctx.xcoord partial_sum = ctx.xcoord point then none
      else
        mimic_loop ctx fuel (m / 2) (point + point)
          (if m % 2 = 1 then partial_sum + point else partial_sum)

/-- `mimic_ec_mult_air`: computes `m * point + shift_point` with the same
steps as the AIR; `none` exactly when the AIR errors.  The source guard is
`(1..Fp::MODULUS_BIT_SIZE).contains(&m.bits())`; for naturals this is
`m ≠ 0 ∧ m < 2 ^ 251` (see `mimic_guard_iff`). -/
def mimic_ec_mult_air (ctx : EcdsaCtx P F K) (m : ℕ) (point shift_point : P) :
    Option P :=
  if m = 0 ∨ 2 ^ 251 ≤ m then none
  else mimic_loop ctx FP_MODULUS_BIT_SIZE m point shift_point

/-- The 256-iteration loop of `gen_ec_mult_steps`, structural in the number
`n` of remaining iterations with `i` the absolute bit index.  On every
iteration the source `unwrap`s `(partial_sum.x - point.x).inverse()` (and,
on a set bit, `calculate_slope`), so an iteration fails exactly when the two
x-coordinates coincide; otherwise it records the step and advances. -/
def gen_loop (ctx : EcdsaCtx P F K) (x : ℕ) :
    ℕ → ℕ → P → P → Except EcdsaError (List (EcMultPartialStep P F))
  | _, 0, _, _ => .ok []
  | i, n + 1, point, partial_sum =>
      if ctx.xcoord partial_sum = ctx.xcoord point then .error .degenerateEcOp
      else
        let suffix := x >>> i
        let bit := suffix % 2
        let step : EcMultPartialStep P F :=
          { partial_sum := partial_sum
            fixed_point := point
            suffix := ctx.fpOfNat suffix
            slope := if bit = 1 then ctx.slope point partial_sum else 0
            x_diff_inv := (ctx.xcoord partial_sum - ctx.xcoord point)⁻¹ }
        (gen_loop ctx x (i + 1) n (point + point)
            (if bit = 1 then partial_sum + point else partial_sum)).map
          (fun rest => step :: rest)

/-- `gen_ec_mult_steps`: assert the scalar is nonzero and below `2 ^ 251`,
then run 256 iterations from `partial_sum = shift_point`. -/
def gen_ec_mult_steps (ctx : EcdsaCtx P F K) (x : ℕ) (point shift_point : P) :
    Except EcdsaError (List (EcMultPartialStep P F)) :=
  if x = 0 then .error .scalarOutOfRange
  else if 2 ^ 251 ≤ x then .error .scalarOutOfRange
  else gen_loop ctx x 0 256 point shift_point

/-- The loop of `doubling_steps`. -/
def doubling_loop (ctx : EcdsaCtx P F K) : ℕ → P → List (DoublingStep P F)
  | 0, _ => []
  | n + 1, p => ⟨p, ctx.slope p p⟩ :: doubling_loop ctx n (p + p)

/-- `doubling_steps`: 256 tangent-slope steps, doubling once per step. -/
def doubling_steps (ctx : EcdsaCtx P F K) (p : P) : List (DoublingStep P F) :=
  doubling_loop ctx 256 p

/-- One candidate round of `verify`: compute
`w * (msg_hash * G + r * Q) + shift` through `mimic_ec_mult_air` (each
`unwrap` is a failure) and return the x-coordinate of the shifted-back
result. -/
def verify_candidate (ctx : EcdsaCtx P F K) (msg_hash r : F) (w : K) (pubkey : P) :
    Option F :=
  match mimic_ec_mult_air ctx (ctx.fpToNat msg_hash) ctx.gen (-ctx.shift) with
  | none => none
  | some zg =>
    match mimic_ec_mult_air ctx (ctx.fpToNat r) pubkey ctx.shift with
    | none => none
    | some rq =>
      match mimic_ec_mult_air ctx (ctx.frToNat w) (zg + rq) ctx.shift with
      | none => none
      | some wb => some (ctx.xcoord (wb - ctx.shift))

/-- `verify`: invert `s` in the scalar field (`unwrap` on zero), recover the
two candidate y-coordinates (`expect` when the x is not on the curve), and
accept the first candidate whose verification x-coordinate equals `r`;
`Except.ok none` is the invalid-signature outcome.  A degenerate
`mimic_ec_mult_air` inside a candidate is an `unwrap` panic. -/
def verify (ctx : EcdsaCtx P F K) (msg_hash r : F) (s : K) (pubkey_x : F) :
    Except EcdsaError (Option P) :=
  if s = 0 then .error .divisionByZero
  else
    match ctx.ysFromX pubkey_x with
    | none => .error .notOnCurve
    | some (y1, y0) =>
      match verify_candidate ctx msg_hash r s⁻¹ (ctx.mkPoint pubkey_x y1) with
      | none => .error .degenerateEcOp
      | some x1 =>
        if r = x1 then .ok (some (ctx.mkPoint pubkey_x y1))
        else
          match verify_candidate ctx msg_hash r s⁻¹ (ctx.mkPoint pubkey_x y0) with
          | none => .error .degenerateEcOp
          | some x0 =>
            if r = x0 then .ok (some (ctx.mkPoint pubkey_x y0)) else .ok none

/-- Source struct `InstanceTrace` (field `instance` renamed to `inst`, a Lean
keyword). -/
structure InstanceTrace (P F : Type) where
  inst : EcdsaInstance
  pubkey : P
  pubkey_doubling_steps : List (DoublingStep P F)
  w : F
  w_inv : F
  r : F
  r_inv : F
  r_point_slope : F
  r_point_x_diff_inv : F
  message : F
  message_inv : F
  b : P
  b_slope : F
  b_x_diff_inv : F
  b_doubling_steps : List (DoublingStep P F)
  zg_steps : List (EcMultPartialStep P F)
  rq_steps : List (EcMultPartialStep P F)
  wb_steps : List (EcMultPartialStep P F)
deriving DecidableEq

/-- Final phase of `InstanceTrace::new` (source lines after the step chains,
split out for reasoning): the three last-step consistency asserts, the
base-field inverses of `w`, `r` and the message, the pubkey doubling chain,
the `r`-point slope data against `-shift` (`calculate_slope` and the
x-difference inverse fail exactly on equal x-coordinates), the final
`r = (wb - shift).x` assert, and the assembled trace. -/
def new_finish (ctx : EcdsaCtx P F K) (inst : EcdsaInstance) (pubkey zg qr wb : P)
    (zg_steps rq_steps wb_steps : List (EcMultPartialStep P F)) :
    Except EcdsaError (InstanceTrace P F) :=
  if zg_steps.getLast?.map EcMultPartialStep.partial_sum ≠ some zg then
    .error .internalAssert
  else if rq_steps.getLast?.map EcMultPartialStep.partial_sum ≠ some qr then
    .error .internalAssert
  else if wb_steps.getLast?.map EcMultPartialStep.partial_sum ≠ some wb then
    .error .internalAssert
  else if ctx.fpOfNat (ctx.frToNat (ctx.frOfNat inst.signature.w)) = 0 then
    .error .divisionByZero
  else if ctx.fpOfNat inst.signature.r = 0 then .error .divisionByZero
  else if ctx.fpOfNat inst.message = 0 then .error .divisionByZero
  else if ctx.xcoord wb = ctx.xcoord (-ctx.shift) then .error .degenerateEcOp
  else if ctx.fpOfNat inst.signature.r ≠ ctx.xcoord (wb - ctx.shift) then
    .error .internalAssert
  else
    .ok { inst := inst
          pubkey := pubkey
          pubkey_doubling_steps := doubling_steps ctx pubkey
          w := ctx.fpOfNat (ctx.frToNat (ctx.frOfNat inst.signature.w))
          w_inv := (ctx.fpOfNat (ctx.frToNat (ctx.frOfNat inst.signature.w)))⁻¹
          r := ctx.fpOfNat inst.signature.r
          r_inv := (ctx.fpOfNat inst.signature.r)⁻¹
          r_point_slope := ctx.slope wb (-ctx.shift)
          r_point_x_diff_inv := (ctx.xcoord wb - ctx.xcoord (-ctx.shift))⁻¹
          message := ctx.fpOfNat inst.message
          message_inv := (ctx.fpOfNat inst.message)⁻¹
          b := zg + qr
          b_slope := ctx.slope zg qr
          b_x_diff_inv := (ctx.xcoord zg - ctx.xcoord qr)⁻¹
          b_doubling_steps := doubling_steps ctx (zg + qr)
          zg_steps := zg_steps
          rq_steps := rq_steps
          wb_steps := wb_steps }

/-- The three `gen_ec_mult_steps` chains of `InstanceTrace::new` (source
lines 96-98), feeding `new_finish`. -/
def new_chains (ctx : EcdsaCtx P F K) (inst : EcdsaInstance) (pubkey zg qr wb : P) :
    Except EcdsaError (InstanceTrace P F) :=
  match gen_ec_mult_steps ctx (ctx.fpToNat (ctx.fpOfNat inst.message)) ctx.gen
      (-ctx.shift) with
  | .error e => .error e
  | .ok zg_steps =>
    match gen_ec_mult_steps ctx (ctx.fpToNat (ctx.fpOfNat inst.signature.r))
        pubkey ctx.shift with
    | .error e => .error e
    | .ok rq_steps =>
      match gen_ec_mult_steps ctx (ctx.frToNat (ctx.frOfNat inst.signature.w))
          (zg + qr) ctx.shift with
      | .error e => .error e
      | .ok wb_steps =>
          new_finish ctx inst pubkey zg qr wb zg_steps rq_steps wb_steps

/-- The `zg`/`qr`/`wb` mimic computations and the `B = zg + qr` slope data of
`InstanceTrace::new` (source lines 84-94): each `unwrap` of a degenerate
mimic computation is a failure, and the `B` slope data (`calculate_slope`
together with `(zg.x - qr.x).inverse().unwrap()`) fails exactly when the two
x-coordinates coincide. -/
def new_mults (ctx : EcdsaCtx P F K) (inst : EcdsaInstance) (pubkey : P) :
    Except EcdsaError (InstanceTrace P F) :=
  match mimic_ec_mult_air ctx (ctx.fpToNat (ctx.fpOfNat inst.message)) ctx.gen
      (-ctx.shift) with
  | none => .error .degenerateEcOp
  | some zg =>
    match mimic_ec_mult_air ctx (ctx.fpToNat (ctx.fpOfNat inst.signature.r))
        pubkey ctx.shift with
    | none => .error .degenerateEcOp
    | some qr =>
      if ctx.xcoord zg = ctx.xcoord qr then .error .degenerateEcOp
      else
        match mimic_ec_mult_air ctx (ctx.frToNat (ctx.frOfNat inst.signature.w))
            (zg + qr) ctx.shift with
        | none => .error .degenerateEcOp
        | some wb => new_chains ctx inst pubkey zg qr wb

/-- `InstanceTrace::new`, with every panic surfaced as an error, in source
order: the scalar-field inversion of `w` (`unwrap` on zero), signature
verification (`expect` turns an `Ok(None)` into the invalid-signature
failure), then the mimic computations, step chains and final checks staged in
`new_mults`, `new_chains` and `new_finish`. -/
def InstanceTrace.new (ctx : EcdsaCtx P F K) (inst : EcdsaInstance) :
    Except EcdsaError (InstanceTrace P F) :=
  if ctx.frOfNat inst.signature.w = 0 then .error .divisionByZero
  else
    match verify ctx (ctx.fpOfNat inst.message) (ctx.fpOfNat inst.signature.r)
        (ctx.frOfNat inst.signature.w)⁻¹ (ctx.fpOfNat inst.pubkey_x) with
    | .error e => .error e
    | .ok none => .error .invalidSignature
    | .ok (some pubkey) => new_mults ctx inst pubkey

end Builder

/-- A two-element field with identity inverse, used as the toy scalar field
of the concrete collaborator instance (its operations reduce definitionally,
which the closed-input evaluations below rely on). -/
inductive F2
  | zero
  | one
deriving DecidableEq, Fintype

instance : Zero F2 := ⟨F2.zero⟩

instance : One F2 := ⟨F2.one⟩

/-- Addition on `F2` (exclusive or). -/
def F2.add : F2 → F2 → F2
  | .zero, b => b
  | .one, .zero => .one
  | .one, .one => .zero

/-- Multiplication on `F2`. -/
def F2.mul : F2 → F2 → F2
  | .one, .one => .one
  | _, _ => .zero

instance : Add F2 := ⟨F2.add⟩

instance : Mul F2 := ⟨F2.mul⟩

instance : Neg F2 := ⟨fun a => a⟩

instance : Inv F2 := ⟨fun a => a⟩

instance : CommRing F2 where
  add_assoc := by decide
  zero_add := by decide
  add_zero := by decide
  add_comm := by decide
  left_distrib := by decide
  right_distrib := by decide
  zero_mul := by decide
  mul_zero := by decide
  mul_assoc := by decide
  one_mul := by decide
  mul_one := by decide
  neg_add_cancel := by decide
  mul_comm := by decide
  nsmul := nsmulRec
  zsmul := zsmulRec

instance : Field F2 where
  inv_zero := by decide
  mul_inv_cancel := by decide
  exists_pair_ne := ⟨F2.zero, F2.one, by decide⟩
  nnqsmul := _
  qsmul := _

/-- A small concrete collaborator instance used to evaluate the builder on
closed inputs: points are the integers under addition, the base field is `ℚ`
with the integer cast as x-coordinate (injective, as on an affine chart),
the scalar field is the two-element `F2`, and the conversions are numeric
casts and parity maps. -/
def toyCtx : EcdsaCtx ℤ ℚ F2 where
  xcoord := fun p => (p : ℚ)
  slope := fun _ _ => 0
  ysFromX := fun x => some (x, x)
  mkPoint := fun x _ => x.num
  gen := 1
  shift := -3
  fpOfNat := fun n => (n : ℚ)
  fpToNat := fun a => a.num.toNat
  frOfNat := fun n => if n % 2 = 1 then 1 else 0
  frToNat := fun a => if a = 1 then 1 else 0

/-- A concrete instance on which `InstanceTrace.new toyCtx` succeeds. -/
def toyInstance : EcdsaInstance :=
  { index := 0, pubkey_x := 0, message := 2, signature := { r := 2, w := 1 } }

/-- A junk trace used only as the default of an `Option.getD`. -/
def junkTrace : InstanceTrace ℤ ℚ :=
  { inst := toyInstance, pubkey := 0, pubkey_doubling_steps := [], w := 0,
    w_inv := 0, r := 0, r_inv := 0, r_point_slope := 0, r_point_x_diff_inv := 0,
    message := 0, message_inv := 0, b := 0, b_slope := 0, b_x_diff_inv := 0,
    b_doubling_steps := [], zg_steps := [], rq_steps := [], wb_steps := [] }

/-- The trace the builder produces on `toyInstance`. -/
def toyTrace : InstanceTrace ℤ ℚ :=
  ((InstanceTrace.new toyCtx toyInstance).toOption).getD junkTrace

end Ecdsa

namespace Binary

/-- A concrete Starknet-layout aux input with every optional segment present,
used to evaluate the encoder on closed inputs. -/
def auxStarknet : CairoAuxInput ℕ :=
  { log_n_steps := 3
    layout := Layout.Starknet
    initial_ap := 0
    initial_pc := 0
    final_ap := 0
    final_pc := 0
    range_check_min := 1
    range_check_max := 9
    public_memory_padding := { address := 1, value := 0 }
    program_segment := { begin_addr := 1, stop_ptr := 5 }
    execution_segment := { begin_addr := 6, stop_ptr := 10 }
    output_segment := some { begin_addr := 11, stop_ptr := 12 }
    pedersen_segment := some { begin_addr := 13, stop_ptr := 14 }
    rc_segment := some { begin_addr := 15, stop_ptr := 16 }
    ecdsa_segment := some { begin_addr := 17, stop_ptr := 18 }
    bitwise_segment := some { begin_addr := 19, stop_ptr := 20 }
    ec_op_segment := some { begin_addr := 21, stop_ptr := 22 }
    poseidon_segment := some { begin_addr := 23, stop_ptr := 24 }
    public_memory := [{ address := 1, value := 0 }] }

/-- Unwrapping a list that contains an unfilled gap fails, exactly like the
source's `.map(Option::unwrap)`. -/
theorem unwrapAll_eq_none_of_mem_none {l : List (Option ℕ)} (h : none ∈ l) :
    unwrapAll l = none := by
  induction l with
  | nil => cases h
  | cons a l ih =>
      cases a with
      | none => rfl
      | some x =>
          cases h with
          | tail _ h => simp [unwrapAll, ih h]

end Binary

open Binary in
/-- C1: for every `CairoAuxInput` whose layout is Starknet and whose output,
pedersen, range-check, ecdsa, bitwise, ec-op and poseidon segments are all
present, `serialize_sharp` returns exactly 27 values — 14 base values, 11
layout values and 2 page values — in the fixed order: log2 step count,
rc min, rc max, layout code, program begin/stop, execution begin/stop,
output begin/stop, Pedersen begin/stop, range-check begin/stop, ECDSA
begin/stop, bitwise begin/stop, EC-op begin/stop, Poseidon begin/stop,
padding address, padding value, page count 1, main-page entry count and
digest. -/
theorem C1_serialize_sharp_starknet {F : Type} (fpToNat : F → ℕ) (natToF : ℕ → F)
    (hashFn : List F → ℕ) (aux : CairoAuxInput F)
    (so sp sr se sb sc sq : Segment)
    (hlay : aux.layout = Layout.Starknet)
    (hout : aux.output_segment = some so)
    (hped : aux.pedersen_segment = some sp)
    (hrc : aux.rc_segment = some sr)
    (hecd : aux.ecdsa_segment = some se)
    (hbit : aux.bitwise_segment = some sb)
    (hecop : aux.ec_op_segment = some sc)
    (hpos : aux.poseidon_segment = some sq) :
    aux.serialize_sharp fpToNat natToF hashFn =
      some [aux.log_n_steps, aux.range_check_min, aux.range_check_max,
            Layout.SHARP_CODE_STARKNET,
            aux.program_segment.begin_addr, aux.program_segment.stop_ptr,
            aux.execution_segment.begin_addr, aux.execution_segment.stop_ptr,
            so.begin_addr, so.stop_ptr, sp.begin_addr, sp.stop_ptr,
            sr.begin_addr, sr.stop_ptr, se.begin_addr, se.stop_ptr,
            sb.begin_addr, sb.stop_ptr, sc.begin_addr, sc.stop_ptr,
            sq.begin_addr, sq.stop_ptr,
            aux.public_memory_padding.address,
            fpToNat aux.public_memory_padding.value, 1,
            aux.public_memory.length,
            hashFn (aux.public_memory.flatMap fun e => [natToF e.address, e.value])] ∧
    (aux.serialize_sharp fpToNat natToF hashFn).map List.length = some 27 := by
  obtain ⟨ln, lay, ia, ip, fa, fq, rmin, rmax, pad, prog, exec, out, ped, rc,
    ecd, bit, ecop, pos, pm⟩ := aux
  simp only at hlay hout hped hrc hecd hbit hecop hpos
  subst hlay hout hped hrc hecd hbit hecop hpos
  constructor
  · rfl
  · rfl

open Binary in
/-- C1 witness: the encoder evaluated on a concrete all-segments-present
Starknet aux input. -/
theorem C1_witness :
    auxStarknet.layout = Layout.Starknet ∧
    auxStarknet.output_segment = some { begin_addr := 11, stop_ptr := 12 } ∧
    auxStarknet.serialize_sharp id id List.length =
      some [3, 1, 9, Layout.SHARP_CODE_STARKNET, 1, 5, 6, 10, 11, 12, 13, 14,
            15, 16, 17, 18, 19, 20, 21, 22, 23, 24, 1, 0, 1, 1, 2] ∧
    (auxStarknet.serialize_sharp id id List.length).map List.length = some 27 := by
  refine ⟨rfl, rfl, ?_, ?_⟩
  · exact (C1_serialize_sharp_starknet id id List.length auxStarknet
      { begin_addr := 11, stop_ptr := 12 } { begin_addr := 13, stop_ptr := 14 }
      { begin_addr := 15, stop_ptr := 16 } { begin_addr := 17, stop_ptr := 18 }
      { begin_addr := 19, stop_ptr := 20 } { begin_addr := 21, stop_ptr := 22 }
      { begin_addr := 23, stop_ptr := 24 } rfl rfl rfl rfl rfl rfl rfl rfl).1
  · exact (C1_serialize_sharp_starknet id id List.length auxStarknet
      { begin_addr := 11, stop_ptr := 12 } { begin_addr := 13, stop_ptr := 14 }
      { begin_addr := 15, stop_ptr := 16 } { begin_addr := 17, stop_ptr := 18 }
      { begin_addr := 19, stop_ptr := 20 } { begin_addr := 21, stop_ptr := 22 }
      { begin_addr := 23, stop_ptr := 24 } rfl rfl rfl rfl rfl rfl rfl rfl).2

open Binary in
/-- C9: for every `CairoAuxInput` whose layout's encoding schema expects a
builtin segment (the output, Pedersen or range-check segment in the base
block, or the ECDSA, bitwise, EC-op or Poseidon segment in the Starknet
layout block) but in which that segment is absent, `serialize_sharp` fails
rather than emitting any default value in that position. -/
theorem C9_serialize_sharp_missing_segment {F : Type} (fpToNat : F → ℕ)
    (natToF : ℕ → F) (hashFn : List F → ℕ) (aux : CairoAuxInput F)
    (hlay : aux.layout = Layout.Starknet)
    (hmiss : aux.output_segment = none ∨ aux.pedersen_segment = none ∨
      aux.rc_segment = none ∨ aux.ecdsa_segment = none ∨
      aux.bitwise_segment = none ∨ aux.ec_op_segment = none ∨
      aux.poseidon_segment = none) :
    aux.serialize_sharp fpToNat natToF hashFn = none := by
  obtain ⟨ln, lay, ia, ip, fa, fq, rmin, rmax, pad, prog, exec, out, ped, rc,
    ecd, bit, ecop, pos, pm⟩ := aux
  simp only at hlay hmiss
  subst hlay
  simp only [CairoAuxInput.serialize_sharp, Layout.sharp_code]
  apply unwrapAll_eq_none_of_mem_none
  rcases hmiss with h | h | h | h | h | h | h <;> subst h <;> simp

open Binary in
/-- C9 witness: the encoder fails on a Starknet aux input whose Pedersen
segment is absent. -/
theorem C9_witness :
    ({ auxStarknet with pedersen_segment := none } : CairoAuxInput ℕ).layout
        = Layout.Starknet ∧
    ({ auxStarknet with pedersen_segment := none } : CairoAuxInput ℕ).pedersen_segment
        = none ∧
    CairoAuxInput.serialize_sharp id id List.length
        { auxStarknet with pedersen_segment := none } = none :=
  ⟨rfl, rfl,
    C9_serialize_sharp_missing_segment id id List.length
      { auxStarknet with pedersen_segment := none } rfl (Or.inr (Or.inl rfl))⟩

open Binary in
/-- C10: `Layout.sharp_code` yields a numeric verifier layout code only for
the Starknet variant, `from_sharp_code` maps that code back to Starknet, and
for every other variant both direct encoding and `serialize_sharp` fail
rather than substituting a default code. -/
theorem C10_layout_sharp_code :
    Layout.sharp_code Layout.Starknet = some Layout.SHARP_CODE_STARKNET ∧
    Layout.from_sharp_code Layout.SHARP_CODE_STARKNET = some Layout.Starknet ∧
    (∀ l : Layout, l ≠ Layout.Starknet → Layout.sharp_code l = none) ∧
    (∀ (F : Type) (fpToNat : F → ℕ) (natToF : ℕ → F) (hashFn : List F → ℕ)
        (aux : CairoAuxInput F), aux.layout ≠ Layout.Starknet →
        aux.serialize_sharp fpToNat natToF hashFn = none) := by
  refine ⟨rfl, rfl, ?_, ?_⟩
  · intro l hl
    cases l <;> simp_all [Layout.sharp_code]
  · intro F fpToNat natToF hashFn aux hl
    have hcode : aux.layout.sharp_code = none := by
      cases h : aux.layout <;> simp_all [Layout.sharp_code]
    simp only [CairoAuxInput.serialize_sharp, hcode]

open Binary in
/-- C10 witness: the Plain layout has no code and cannot be serialized. -/
theorem C10_witness :
    Layout.Plain ≠ Layout.Starknet ∧
    Layout.sharp_code Layout.Plain = none ∧
    CairoAuxInput.serialize_sharp id id List.length
      { auxStarknet with layout := Layout.Plain } = none :=
  ⟨by decide, C10_layout_sharp_code.2.2.1 Layout.Plain (by decide),
    C10_layout_sharp_code.2.2.2 ℕ id id List.length
      { auxStarknet with layout := Layout.Plain } (by decide)⟩

open Binary in
/-- C8 counterexample: the word `2 ^ 50 + 2 ^ 51` is below the field modulus
yet has both the Op1Imm and Op1Fp flags set, so its Op1Src group value is 3,
outside the documented set `{0, 1, 2, 4}`; `get_flag_group` performs no
one-hot check, and `w < modulus` does not constrain the flag bits. -/
theorem C8_counterexample :
    (⟨2 ^ 50 + 2 ^ 51⟩ : Word).val < P_STARK ∧
    Word.get_flag_group ⟨2 ^ 50 + 2 ^ 51⟩ FlagGroup.Op1Src = 3 ∧
    ¬(Word.get_flag_group ⟨2 ^ 50 + 2 ^ 51⟩ FlagGroup.Op1Src = 0 ∨
      Word.get_flag_group ⟨2 ^ 50 + 2 ^ 51⟩ FlagGroup.Op1Src = 1 ∨
      Word.get_flag_group ⟨2 ^ 50 + 2 ^ 51⟩ FlagGroup.Op1Src = 2 ∨
      Word.get_flag_group ⟨2 ^ 50 + 2 ^ 51⟩ FlagGroup.Op1Src = 4) := by
  refine ⟨by norm_num [P_STARK], by decide, by decide⟩

open Binary in
/-- C8 (amended): for every 256-bit word below the field modulus, each flag
group value is bounded by its weight sum (1, 1, 7, 3, 7, 3, 7 respectively),
the Op1Src group equals `Op1Imm + 2 * Op1Fp + 4 * Op1Ap`, and it lies in
`{0, 1, 2, 4}` exactly when at most one of the three source flags is set —
not for every word below the modulus. -/
theorem C8_flag_group_ranges (w : Word) (_hw : w.val < P_STARK) :
    w.get_flag_group FlagGroup.DstReg ≤ 1 ∧
    w.get_flag_group FlagGroup.Op0Reg ≤ 1 ∧
    w.get_flag_group FlagGroup.Op1Src ≤ 7 ∧
    w.get_flag_group FlagGroup.ResLogic ≤ 3 ∧
    w.get_flag_group FlagGroup.PcUpdate ≤ 7 ∧
    w.get_flag_group FlagGroup.ApUpdate ≤ 3 ∧
    w.get_flag_group FlagGroup.Opcode ≤ 7 ∧
    w.get_flag_group FlagGroup.Op1Src =
      (w.get_flag Flag.Op1Imm).toNat + 2 * (w.get_flag Flag.Op1Fp).toNat +
        4 * (w.get_flag Flag.Op1Ap).toNat ∧
    ((w.get_flag Flag.Op1Imm).toNat + (w.get_flag Flag.Op1Fp).toNat +
        (w.get_flag Flag.Op1Ap).toNat ≤ 1 ↔
      (w.get_flag_group FlagGroup.Op1Src = 0 ∨
       w.get_flag_group FlagGroup.Op1Src = 1 ∨
       w.get_flag_group FlagGroup.Op1Src = 2 ∨
       w.get_flag_group FlagGroup.Op1Src = 4)) := by
  have hb : ∀ b : Bool, b.toNat ≤ 1 := by intro b; cases b <;> simp
  have h1 := hb (w.get_flag Flag.DstReg)
  have h2 := hb (w.get_flag Flag.Op0Reg)
  have h3 := hb (w.get_flag Flag.Op1Imm)
  have h4 := hb (w.get_flag Flag.Op1Fp)
  have h5 := hb (w.get_flag Flag.Op1Ap)
  have h6 := hb (w.get_flag Flag.ResAdd)
  have h7 := hb (w.get_flag Flag.ResMul)
  have h8 := hb (w.get_flag Flag.PcJumpAbs)
  have h9 := hb (w.get_flag Flag.PcJumpRel)
  have h10 := hb (w.get_flag Flag.PcJnz)
  have h11 := hb (w.get_flag Flag.ApAdd)
  have h12 := hb (w.get_flag Flag.ApAdd1)
  have h13 := hb (w.get_flag Flag.OpcodeCall)
  have h14 := hb (w.get_flag Flag.OpcodeRet)
  have h15 := hb (w.get_flag Flag.OpcodeAssertEq)
  simp only [Word.get_flag_group]
  omega

open Binary in
/-- C8 witness: a word with only the Op1Imm flag set has Op1Src group value
in range. -/
theorem C8_witness :
    (⟨2 ^ 50⟩ : Word).val < P_STARK ∧
    Word.get_flag_group ⟨2 ^ 50⟩ FlagGroup.Op1Src ≤ 7 :=
  ⟨by norm_num [P_STARK],
    (C8_flag_group_ranges ⟨2 ^ 50⟩ (by norm_num [P_STARK])).2.2.1⟩

open Binary in
/-- C5: for every word whose PcUpdate flag group equals 4 (jump-if-nonzero)
with ResLogic group 0, Opcode group 0 and ApUpdate group not equal to 1, and
every `ap`/`fp`/memory in which `dst` resolves, `get_res` returns the field
inverse of the `dst` value, and returns zero when `dst` is zero —
division by zero is defined as zero, not an error. -/
theorem C5_get_res_jnz_inverse {F : Type} [Field F] (intoFelt : ℕ → F)
    (w : Word) (pc ap fp : ℕ) (mem : Mem) (d : F)
    (h4 : w.get_flag_group FlagGroup.PcUpdate = 4)
    (h0 : w.get_flag_group FlagGroup.ResLogic = 0)
    (hop : w.get_flag_group FlagGroup.Opcode = 0)
    (hap : w.get_flag_group FlagGroup.ApUpdate ≠ 1)
    (hd : w.get_dst intoFelt ap fp mem = some d) :
    w.get_res intoFelt pc ap fp mem = some d⁻¹ ∧
    (d = 0 → w.get_res intoFelt pc ap fp mem = some 0) := by
  have hres : w.get_res intoFelt pc ap fp mem = some d⁻¹ := by
    unfold Word.get_res
    rw [if_pos h4, if_pos ⟨h0, hop, hap⟩, hd]
    rfl
  refine ⟨hres, fun hzero => ?_⟩
  rw [hres, hzero, inv_zero]

set_option maxRecDepth 8000 in
open Binary in
/-- C5 witness: a jump-if-nonzero word whose `dst` resolves to 5 gets
`res = 5⁻¹`. -/
theorem C5_witness :
    Word.get_flag_group ⟨0x8000 + 0x8000 * 2 ^ 16 + 0x8000 * 2 ^ 32 + 2 ^ 57⟩
        FlagGroup.PcUpdate = 4 ∧
    Word.get_dst (fun n => (n : ℚ))
        ⟨0x8000 + 0x8000 * 2 ^ 16 + 0x8000 * 2 ^ 32 + 2 ^ 57⟩ 0 0 [some ⟨5⟩]
      = some 5 ∧
    Word.get_res (fun n => (n : ℚ))
        ⟨0x8000 + 0x8000 * 2 ^ 16 + 0x8000 * 2 ^ 32 + 2 ^ 57⟩ 0 0 0 [some ⟨5⟩]
      = some (5 : ℚ)⁻¹ :=
  ⟨by decide, by decide,
    (C5_get_res_jnz_inverse (fun n => (n : ℚ))
      ⟨0x8000 + 0x8000 * 2 ^ 16 + 0x8000 * 2 ^ 32 + 2 ^ 57⟩ 0 0 0 [some ⟨5⟩] 5
      (by decide) (by decide) (by decide) (by decide) (by decide)).1⟩

namespace Binary

/-- `natToBytesLE` always produces exactly `k` bytes. -/
theorem natToBytesLE_length (k n : ℕ) : (natToBytesLE k n).length = k := by
  induction k generalizing n with
  | zero => rfl
  | succ k ih => simp [natToBytesLE, ih]

/-- Decoding the `k`-byte little-endian encoding of `n` recovers `n % 256 ^ k`. -/
theorem bytesToNatLE_natToBytesLE (k n : ℕ) :
    bytesToNatLE (natToBytesLE k n) = n % 256 ^ k := by
  induction k generalizing n with
  | zero => simp [natToBytesLE, bytesToNatLE, Nat.mod_one]
  | succ k ih =>
      have hmul : (256 : ℕ) ^ (k + 1) = 256 * 256 ^ k := by ring
      rw [natToBytesLE, bytesToNatLE, ih, hmul, Nat.mod_mul]

/-- `encodeRecords` on a cons splits off the head record's bytes. -/
theorem encodeRecords_cons (fieldBytes : ℕ) (r : ℕ × ℕ) (rs : List (ℕ × ℕ)) :
    encodeRecords fieldBytes (r :: rs) =
      natToBytesLE 8 r.1 ++ (natToBytesLE fieldBytes r.2 ++ encodeRecords fieldBytes rs) := by
  simp [encodeRecords, encodeRecord, List.flatMap_cons]

/-- The byte length of an encoded record stream. -/
theorem encodeRecords_length (fieldBytes : ℕ) (rs : List (ℕ × ℕ)) :
    (encodeRecords fieldBytes rs).length = rs.length * (8 + fieldBytes) := by
  induction rs with
  | nil => simp [encodeRecords]
  | cons r rs ih =>
      rw [encodeRecords_cons]
      simp only [List.length_append, natToBytesLE_length, ih, List.length_cons]
      ring

/-- C7 core: if some record of an encoded stream carries a value at or above
the modulus, the read loop fails with the range error (given enough fuel). -/
theorem read_loop_valueOutOfRange (modulus fieldBytes : ℕ)
    (rs : List (ℕ × ℕ)) (fuel : ℕ) (hfuel : rs.length ≤ fuel)
    (hwidth : ∀ r ∈ rs, r.2 < 256 ^ fieldBytes)
    (hbad : ∃ r ∈ rs, modulus ≤ r.2) :
    Memory.read_loop modulus fieldBytes fuel (encodeRecords fieldBytes rs) =
      .error .valueOutOfRange := by
  induction rs generalizing fuel with
  | nil => simp at hbad
  | cons r rs ih =>
      cases fuel with
      | zero => simp at hfuel
      | succ fuel =>
          have hlen8 : (natToBytesLE 8 r.1).length = 8 := natToBytesLE_length 8 r.1
          have hlenf : (natToBytesLE fieldBytes r.2).length = fieldBytes :=
            natToBytesLE_length fieldBytes r.2
          have hlen : (natToBytesLE 8 r.1 ++ (natToBytesLE fieldBytes r.2 ++
              encodeRecords fieldBytes rs)).length =
              8 + fieldBytes + (encodeRecords fieldBytes rs).length := by
            simp [hlen8, hlenf]
            omega
          have hnonempty : ¬ (natToBytesLE 8 r.1 ++ (natToBytesLE fieldBytes r.2 ++
              encodeRecords fieldBytes rs)).isEmpty = true := by
            rw [List.isEmpty_iff_length_eq_zero, hlen]
            omega
          have hshort : ¬ (natToBytesLE 8 r.1 ++ (natToBytesLE fieldBytes r.2 ++
              encodeRecords fieldBytes rs)).length < 8 + fieldBytes := by
            rw [hlen]; omega
          have hdrop8 : (natToBytesLE 8 r.1 ++ (natToBytesLE fieldBytes r.2 ++
              encodeRecords fieldBytes rs)).drop 8 =
              natToBytesLE fieldBytes r.2 ++ encodeRecords fieldBytes rs :=
            List.drop_left' hlen8
          have htakef : (natToBytesLE fieldBytes r.2 ++
              encodeRecords fieldBytes rs).take fieldBytes =
              natToBytesLE fieldBytes r.2 := List.take_left' hlenf
          have hdropall : (natToBytesLE 8 r.1 ++ (natToBytesLE fieldBytes r.2 ++
              encodeRecords fieldBytes rs)).drop (8 + fieldBytes) =
              encodeRecords fieldBytes rs := by
            rw [← List.drop_drop, hdrop8]
            exact List.drop_left' hlenf
          have hwordB : bytesToNatLE (natToBytesLE fieldBytes r.2) = r.2 := by
            rw [bytesToNatLE_natToBytesLE]
            exact Nat.mod_eq_of_lt (hwidth r (List.mem_cons_self r rs))
          rw [encodeRecords_cons]
          simp only [Memory.read_loop, if_neg hnonempty, if_neg hshort, hdrop8,
            htakef, hwordB, hdropall]
          by_cases hr : r.2 < modulus
          · have hnew : Word.new modulus r.2 = some ⟨r.2⟩ := by
              simp [Word.new, hr]
            have hfuel' : rs.length ≤ fuel := by
              simp only [List.length_cons] at hfuel
              omega
            have hbad' : ∃ x ∈ rs, modulus ≤ x.2 := by
              rcases hbad with ⟨x, hx, hgx⟩
              rcases List.mem_cons.mp hx with rfl | hx
              · omega
              · exact ⟨x, hx, hgx⟩
            simp only [hnew]
            rw [ih fuel hfuel' (fun x hx => hwidth x (List.mem_cons_of_mem r hx)) hbad']
            rfl
          · have hnew : Word.new modulus r.2 = none := by
              simp [Word.new, hr]
            simp only [hnew]

end Binary

open Binary in
/-- C7: for every input stream containing a record whose 256-bit value is at
or above the active field's modulus, `Memory::from_reader` fails with a
value-out-of-range failure (the `debug_assert!` in `Word::new`) rather than
storing the value. -/
theorem C7_from_reader_value_out_of_range (modulus fieldBytes : ℕ)
    (rs : List (ℕ × ℕ))
    (hwidth : ∀ r ∈ rs, r.2 < 256 ^ fieldBytes)
    (hbad : ∃ r ∈ rs, modulus ≤ r.2) :
    Memory.from_reader modulus fieldBytes (encodeRecords fieldBytes rs) =
      .error .valueOutOfRange := by
  have hfuel : rs.length ≤ (encodeRecords fieldBytes rs).length := by
    rw [encodeRecords_length]
    have h1 : (1 : ℕ) ≤ 8 + fieldBytes := by omega
    calc rs.length = rs.length * 1 := by omega
      _ ≤ rs.length * (8 + fieldBytes) := Nat.mul_le_mul_left _ h1
  rw [Memory.from_reader,
    read_loop_valueOutOfRange modulus fieldBytes rs _ hfuel hwidth hbad]
  rfl

open Binary in
/-- C7 witness: a one-record stream with modulus 5, one value byte, and value
6 is rejected as out of range. -/
theorem C7_witness :
    (∀ r ∈ [((0 : ℕ), (6 : ℕ))], r.2 < 256 ^ 1) ∧
    (∃ r ∈ [((0 : ℕ), (6 : ℕ))], 5 ≤ r.2) ∧
    Memory.from_reader 5 1 (encodeRecords 1 [(0, 6)]) =
      .error .valueOutOfRange :=
  ⟨by decide, ⟨(0, 6), by decide, by decide⟩,
    C7_from_reader_value_out_of_range 5 1 [(0, 6)] (by decide)
      ⟨(0, 6), by decide, by decide⟩⟩

namespace Binary

/-- Writing parsed pairs into the table never changes its length. -/
theorem buildTable_foldl_length (pairs : List (ℕ × Word)) :
    ∀ init : List (Option Word),
      (pairs.foldl (fun mem p => mem.set p.1 (some p.2)) init).length =
        init.length := by
  induction pairs with
  | nil => intro init; rfl
  | cons p ps ih =>
      intro init
      rw [List.foldl_cons, ih, List.length_set]

/-- The dense table has length `max observed address + 1` (with the maximum
defaulting to 0 on an empty record list). -/
theorem buildTable_length (pairs : List (ℕ × Word)) :
    (Memory.buildTable pairs).length =
      pairs.foldl (fun m p => max m p.1) 0 + 1 := by
  simp only [Memory.buildTable]
  rw [buildTable_foldl_length, List.length_replicate]

/-- Slots at addresses never written keep the initial table's content. -/
theorem buildTable_foldl_getElem? (pairs : List (ℕ × Word)) (a : ℕ)
    (h : a ∉ pairs.map Prod.fst) :
    ∀ init : List (Option Word),
      (pairs.foldl (fun mem p => mem.set p.1 (some p.2)) init)[a]? = init[a]? := by
  induction pairs with
  | nil => intro init; rfl
  | cons p ps ih =>
      intro init
      simp only [List.map_cons, List.mem_cons] at h
      push_neg at h
      rw [List.foldl_cons, ih h.2, List.getElem?_set_ne (Ne.symm h.1)]

/-- Unwritten addresses stay `none`, distinct from a stored zero. -/
theorem buildTable_unwritten (pairs : List (ℕ × Word)) (a : ℕ)
    (h : a ∉ pairs.map Prod.fst) :
    (Memory.buildTable pairs).getD a none = none := by
  simp only [Memory.buildTable]
  rw [List.getD_eq_getElem?_getD, buildTable_foldl_getElem? pairs a h,
    List.getElem?_replicate]
  split <;> rfl

end Binary

open Binary in
/-- C6 counterexample: on an empty byte stream `Memory::from_reader` yields a
table of length one (the running maximum address starts at 0 and the table is
sized `max_address + 1`), not the empty table the claim asserts. -/
theorem C6_counterexample :
    Memory.from_reader P_STARK STARK_FIELD_BYTES [] = .ok [none] ∧
    (Except.ok [none] : Except MemoryError (List (Option Word))) ≠ .ok [] := by
  exact ⟨rfl, by simp⟩

set_option maxRecDepth 100000 in
open Binary in
/-- C6 (amended): `Memory::from_reader` on an empty byte stream yields a
table of length one whose single slot is absent (the maximum address defaults
to 0); on a stream with exactly one record `(address 5, value 7)` it yields a
table of length 6 whose slots 0 through 4 are absent and whose slot 5 holds
the value 7; in general the table's length is the running maximum of the
observed addresses (0 when there are none) plus one, and unwritten addresses
stay `none`, distinct from a stored zero. -/
theorem C6_from_reader_table :
    Memory.from_reader P_STARK STARK_FIELD_BYTES [] = .ok [none] ∧
    Memory.from_reader P_STARK STARK_FIELD_BYTES
        (encodeRecords STARK_FIELD_BYTES [(5, 7)]) =
      .ok [none, none, none, none, none, some ⟨7⟩] ∧
    (∀ pairs : List (ℕ × Word),
      (Memory.buildTable pairs).length =
        pairs.foldl (fun m p => max m p.1) 0 + 1) ∧
    (∀ (pairs : List (ℕ × Word)) (a : ℕ), a ∉ pairs.map Prod.fst →
      (Memory.buildTable pairs).getD a none = none) :=
  ⟨rfl, rfl, fun pairs => buildTable_length pairs,
    fun pairs a h => buildTable_unwritten pairs a h⟩

open Binary in
/-- C6 witness: the unwritten-slot clause applied at a concrete table. -/
theorem C6_witness :
    (3 ∉ ([((5 : ℕ), (⟨7⟩ : Word))].map Prod.fst)) ∧
    (Memory.buildTable [(5, ⟨7⟩)]).getD 3 none = none :=
  ⟨by decide, C6_from_reader_table.2.2.2 [(5, ⟨7⟩)] 3 (by decide)⟩

namespace Ecdsa

/-- The Stark prime has exactly `FP_MODULUS_BIT_SIZE` bits, the bound used by
`mimic_ec_mult_air`'s scalar guard. -/
theorem P_STARK_bit_size :
    2 ^ 251 ≤ Binary.P_STARK ∧ Binary.P_STARK < 2 ^ FP_MODULUS_BIT_SIZE := by
  constructor <;> norm_num [Binary.P_STARK, FP_MODULUS_BIT_SIZE]

/-- The source guard `(1..Fp::MODULUS_BIT_SIZE).contains(&m.bits())` is, for
naturals, exactly the complement of `m = 0 ∨ 2 ^ 251 ≤ m`, the form used in
the embedded `mimic_ec_mult_air`. -/
theorem mimic_guard_iff (m : ℕ) :
    (1 ≤ Nat.size m ∧ Nat.size m < FP_MODULUS_BIT_SIZE) ↔
      ¬(m = 0 ∨ 2 ^ 251 ≤ m) := by
  have h1 : Nat.size m < FP_MODULUS_BIT_SIZE ↔ m < 2 ^ 251 := by
    rw [FP_MODULUS_BIT_SIZE]
    constructor
    · intro h
      exact Nat.size_le.mp (by omega)
    · intro h
      have := Nat.size_le.mpr h
      omega
  have h2 : 1 ≤ Nat.size m ↔ 0 < m := Nat.size_pos
  rw [h1, h2]
  push_neg
  constructor
  · exact fun h => ⟨Nat.pos_iff_ne_zero.mp h.1, h.2⟩
  · exact fun h => ⟨Nat.pos_of_ne_zero h.1, h.2⟩

section Builder

variable {P F K : Type} [AddCommGroup P] [DecidableEq P] [Field F] [DecidableEq F]
variable [Field K] [DecidableEq K]

/-- Loop invariant of `gen_loop`: a successful run of `n` iterations from bit
`i` produces exactly `n` steps, and the partial sum recorded in the last step
is the start sum plus `((x >> i) mod 2 ^ (n - 1))` times the current point —
the bits strictly below the last iteration are the ones already added. -/
theorem gen_loop_ok (ctx : EcdsaCtx P F K) (x : ℕ) :
    ∀ (n i : ℕ) (point partial_sum : P) (L : List (EcMultPartialStep P F)),
      gen_loop ctx x i n point partial_sum = .ok L →
      L.length = n ∧
        (n = 0 ∨ L.getLast?.map EcMultPartialStep.partial_sum =
          some (partial_sum + ((x >>> i) % 2 ^ (n - 1)) • point)) := by
  intro n
  induction n with
  | zero =>
      intro i pt ps L h
      simp only [gen_loop] at h
      cases h
      exact ⟨rfl, Or.inl rfl⟩
  | succ n ih =>
      intro i pt ps L h
      by_cases hx : ctx.xcoord ps = ctx.xcoord pt
      · simp only [gen_loop, if_pos hx] at h
        exact Except.noConfusion h
      · simp only [gen_loop, if_neg hx] at h
        cases hrec : gen_loop ctx x (i + 1) n (pt + pt)
            (if (x >>> i) % 2 = 1 then ps + pt else ps) with
        | error e =>
            rw [hrec] at h
            exact Except.noConfusion h
        | ok L2 =>
            rw [hrec] at h
            simp only [Except.map] at h
            cases h
            obtain ⟨hlen, hlast⟩ := ih (i + 1) (pt + pt)
              (if (x >>> i) % 2 = 1 then ps + pt else ps) L2 hrec
            refine ⟨by simp [hlen], Or.inr ?_⟩
            cases n with
            | zero =>
                have hnil : L2 = [] := List.length_eq_zero.mp hlen
                subst hnil
                simp only [List.getLast?_singleton, Option.map_some',
                  Nat.succ_sub_one, pow_zero, Nat.mod_one, zero_smul, add_zero]
            | succ k =>
                rcases hlast with h0 | hlast
                · exact absurd h0 (Nat.succ_ne_zero k)
                · obtain ⟨s2, L3, rfl⟩ : ∃ s2 L3, L2 = s2 :: L3 := by
                    cases L2 with
                    | nil => simp at hlen
                    | cons a l => exact ⟨a, l, rfl⟩
                  rw [List.getLast?_cons_cons, hlast]
                  simp only [Nat.succ_sub_one] at hlast ⊢
                  have hbit : (x >>> i) % 2 ^ (k + 1) =
                      (x >>> i) % 2 + 2 * ((x >>> (i + 1)) % 2 ^ k) := by
                    have hm : (2 : ℕ) ^ (k + 1) = 2 * 2 ^ k := by ring
                    rw [hm, Nat.mod_mul, Nat.shiftRight_succ]
                  rw [hbit]
                  have h2c : ∀ (c : ℕ) (q : P), c • (q + q) = (2 * c) • q := by
                    intro c q
                    rw [smul_add, two_mul, add_smul]
                  rcases Nat.mod_two_eq_zero_or_one (x >>> i) with hb | hb
                  · rw [hb]
                    simp only [Option.some.injEq, zero_add, h2c, reduceIte]
                    abel
                  · rw [hb]
                    simp only [Option.some.injEq, h2c, reduceIte, add_smul,
                      one_smul]
                    abel

end Builder

end Ecdsa

namespace Ecdsa

section Builder

variable {P F K : Type} [AddCommGroup P] [DecidableEq P] [Field F] [DecidableEq F]
variable [Field K] [DecidableEq K]

/-- A successful `gen_ec_mult_steps` run implies the scalar range guards
passed, the chain has exactly 256 steps, and the last recorded partial sum is
`shift_point + x • point` (the scalar is below `2 ^ 251`, so the 255 bits
that the last step can have accumulated cover all of it). -/
theorem gen_steps_ok (ctx : EcdsaCtx P F K) (x : ℕ) (point shift_point : P)
    (L : List (EcMultPartialStep P F))
    (h : gen_ec_mult_steps ctx x point shift_point = .ok L) :
    x ≠ 0 ∧ x < 2 ^ 251 ∧ L.length = 256 ∧
      L.getLast?.map EcMultPartialStep.partial_sum =
        some (shift_point + x • point) := by
  rw [gen_ec_mult_steps] at h
  by_cases hx0 : x = 0
  · rw [if_pos hx0] at h
    exact Except.noConfusion h
  · rw [if_neg hx0] at h
    by_cases hxr : 2 ^ 251 ≤ x
    · rw [if_pos hxr] at h
      exact Except.noConfusion h
    · rw [if_neg hxr] at h
      obtain ⟨hlen, hlast⟩ := gen_loop_ok ctx x 256 0 point shift_point L h
      rcases hlast with h0 | hlast
      · exact absurd h0 (by omega)
      · have h255 : (2 : ℕ) ^ 251 ≤ 2 ^ (256 - 1) := by norm_num
        have hmod : (x >>> 0) % 2 ^ (256 - 1) = x := by
          rw [Nat.shiftRight_zero]
          exact Nat.mod_eq_of_lt (lt_of_lt_of_le (by omega) h255)
        rw [hmod] at hlast
        exact ⟨hx0, by omega, hlen, hlast⟩

/-- `doubling_loop` produces exactly as many steps as requested. -/
theorem doubling_loop_length (ctx : EcdsaCtx P F K) (n : ℕ) :
    ∀ p : P, (doubling_loop ctx n p).length = n := by
  induction n with
  | zero => intro p; rfl
  | succ n ih => intro p; simp [doubling_loop, ih]

/-- `doubling_steps` always produces exactly 256 steps. -/
theorem doubling_steps_length (ctx : EcdsaCtx P F K) (p : P) :
    (doubling_steps ctx p).length = 256 :=
  doubling_loop_length ctx 256 p

/-- Inversion of a successful `InstanceTrace::new`: the three step chains
stored in the trace are successful `gen_ec_mult_steps` runs on the
field-reduced message, `r` and `w` scalars against the generator, the
recovered public key and `B`, and the two doubling chains are
`doubling_steps` of the public key and of `B`. -/
theorem new_ok_spec (ctx : EcdsaCtx P F K) (inst : EcdsaInstance)
    (t : InstanceTrace P F) (h : InstanceTrace.new ctx inst = .ok t) :
    gen_ec_mult_steps ctx (ctx.fpToNat (ctx.fpOfNat inst.message)) ctx.gen
        (-ctx.shift) = .ok t.zg_steps ∧
    gen_ec_mult_steps ctx (ctx.fpToNat (ctx.fpOfNat inst.signature.r)) t.pubkey
        ctx.shift = .ok t.rq_steps ∧
    gen_ec_mult_steps ctx (ctx.frToNat (ctx.frOfNat inst.signature.w)) t.b
        ctx.shift = .ok t.wb_steps ∧
    t.pubkey_doubling_steps = doubling_steps ctx t.pubkey ∧
    t.b_doubling_steps = doubling_steps ctx t.b := by
  unfold InstanceTrace.new at h
  split at h
  all_goals try exact Except.noConfusion h
  split at h
  all_goals try exact Except.noConfusion h
  unfold new_mults at h
  repeat' split at h
  all_goals try exact Except.noConfusion h
  unfold new_chains at h
  repeat' split at h
  all_goals try exact Except.noConfusion h
  unfold new_finish at h
  repeat' split at h
  all_goals try exact Except.noConfusion h
  cases h
  exact ⟨by assumption, by assumption, by assumption, rfl, rfl⟩

end Builder

end Ecdsa

namespace Ecdsa

section Builder

variable {P F K : Type} [AddCommGroup P] [DecidableEq P] [Field F] [DecidableEq F]
variable [Field K] [DecidableEq K]

/-- Subtracting the chain's start sum from its last recorded partial sum. -/
theorem getLast_sub_shift {L : List (EcMultPartialStep P F)} {sh v : P}
    (h : L.getLast?.map EcMultPartialStep.partial_sum = some (sh + v)) :
    L.getLast?.map (fun s => s.partial_sum - sh) = some v := by
  cases hgl : L.getLast? with
  | none => rw [hgl] at h; exact Option.noConfusion h
  | some s =>
      rw [hgl] at h
      simp only [Option.map_some'] at h ⊢
      rw [Option.some.injEq] at h
      rw [h, add_sub_cancel_left]

end Builder

end Ecdsa

open Ecdsa in
/-- C2: for every ECDSA instance on which `InstanceTrace::new` succeeds, each
of the three scalar-multiplication step chains (for `z * G`, `r * Q`, `w * B`)
has exactly 256 steps, each of the two pure-doubling chains (for the public
key and for `B`) has exactly 256 steps, and the last recorded partial sum of
each scalar-multiplication chain, minus the chain's shift point (`-shift` for
the `z * G` chain, `shift` for the other two), equals the externally computed
scalar multiplication `scalar • point` for that chain's field-reduced scalar
and base point. -/
theorem C2_instance_trace_chains {P F K : Type} [AddCommGroup P] [DecidableEq P]
    [Field F] [DecidableEq F] [Field K] [DecidableEq K]
    (ctx : EcdsaCtx P F K) (inst : EcdsaInstance) (t : InstanceTrace P F)
    (h : InstanceTrace.new ctx inst = .ok t) :
    t.zg_steps.length = 256 ∧ t.rq_steps.length = 256 ∧
    t.wb_steps.length = 256 ∧ t.pubkey_doubling_steps.length = 256 ∧
    t.b_doubling_steps.length = 256 ∧
    t.zg_steps.getLast?.map (fun s => s.partial_sum - -ctx.shift) =
      some ((ctx.fpToNat (ctx.fpOfNat inst.message)) • ctx.gen) ∧
    t.rq_steps.getLast?.map (fun s => s.partial_sum - ctx.shift) =
      some ((ctx.fpToNat (ctx.fpOfNat inst.signature.r)) • t.pubkey) ∧
    t.wb_steps.getLast?.map (fun s => s.partial_sum - ctx.shift) =
      some ((ctx.frToNat (ctx.frOfNat inst.signature.w)) • t.b) := by
  obtain ⟨h1, h2, h3, h4, h5⟩ := new_ok_spec ctx inst t h
  obtain ⟨_, _, hlen1, hlast1⟩ := gen_steps_ok ctx _ _ _ _ h1
  obtain ⟨_, _, hlen2, hlast2⟩ := gen_steps_ok ctx _ _ _ _ h2
  obtain ⟨_, _, hlen3, hlast3⟩ := gen_steps_ok ctx _ _ _ _ h3
  refine ⟨hlen1, hlen2, hlen3, ?_, ?_, ?_, ?_, ?_⟩
  · rw [h4]; exact doubling_steps_length ctx _
  · rw [h5]; exact doubling_steps_length ctx _
  · exact getLast_sub_shift hlast1
  · exact getLast_sub_shift hlast2
  · exact getLast_sub_shift hlast3

set_option maxRecDepth 1000000 in
open Ecdsa in
/-- C2 witness: the builder succeeds on the concrete toy instance and the
chain properties hold there. -/
theorem C2_witness :
    InstanceTrace.new toyCtx toyInstance = .ok toyTrace ∧
    (toyTrace.zg_steps.length = 256 ∧ toyTrace.rq_steps.length = 256 ∧
      toyTrace.wb_steps.length = 256 ∧
      toyTrace.pubkey_doubling_steps.length = 256 ∧
      toyTrace.b_doubling_steps.length = 256 ∧
      toyTrace.zg_steps.getLast?.map (fun s => s.partial_sum - -toyCtx.shift) =
        some ((toyCtx.fpToNat (toyCtx.fpOfNat toyInstance.message)) • toyCtx.gen) ∧
      toyTrace.rq_steps.getLast?.map (fun s => s.partial_sum - toyCtx.shift) =
        some ((toyCtx.fpToNat (toyCtx.fpOfNat toyInstance.signature.r)) •
          toyTrace.pubkey) ∧
      toyTrace.wb_steps.getLast?.map (fun s => s.partial_sum - toyCtx.shift) =
        some ((toyCtx.frToNat (toyCtx.frOfNat toyInstance.signature.w)) •
          toyTrace.b)) :=
  have hEq : InstanceTrace.new toyCtx toyInstance = .ok toyTrace := by rfl
  ⟨hEq, C2_instance_trace_chains toyCtx toyInstance toyTrace hEq⟩

open Ecdsa in
/-- C3: for every ECDSA instance whose `pubkey_x` lies on the curve (both
candidate y-coordinates exist) and whose `w` is invertible in the scalar
field, if the verification x-coordinate is defined for both candidates and
equals `r` for neither, trace building fails with the invalid-signature
error and no trace is produced; and when some candidate satisfies the
equation, the first satisfying candidate in the fixed order `(y1, y0)` is
accepted as the public key. -/
theorem C3_invalid_signature {P F K : Type} [AddCommGroup P] [DecidableEq P]
    [Field F] [DecidableEq F] [Field K] [DecidableEq K]
    (ctx : EcdsaCtx P F K) (inst : EcdsaInstance) (y1 y0 : F)
    (hys : ctx.ysFromX (ctx.fpOfNat inst.pubkey_x) = some (y1, y0))
    (hw : ctx.frOfNat inst.signature.w ≠ 0) :
    (∀ x1 x0 : F,
      verify_candidate ctx (ctx.fpOfNat inst.message)
          (ctx.fpOfNat inst.signature.r) (ctx.frOfNat inst.signature.w)
          (ctx.mkPoint (ctx.fpOfNat inst.pubkey_x) y1) = some x1 →
      verify_candidate ctx (ctx.fpOfNat inst.message)
          (ctx.fpOfNat inst.signature.r) (ctx.frOfNat inst.signature.w)
          (ctx.mkPoint (ctx.fpOfNat inst.pubkey_x) y0) = some x0 →
      ctx.fpOfNat inst.signature.r ≠ x1 →
      ctx.fpOfNat inst.signature.r ≠ x0 →
      InstanceTrace.new ctx inst = .error .invalidSignature) ∧
    (∀ x1 : F,
      verify_candidate ctx (ctx.fpOfNat inst.message)
          (ctx.fpOfNat inst.signature.r) (ctx.frOfNat inst.signature.w)
          (ctx.mkPoint (ctx.fpOfNat inst.pubkey_x) y1) = some x1 →
      ctx.fpOfNat inst.signature.r = x1 →
      verify ctx (ctx.fpOfNat inst.message) (ctx.fpOfNat inst.signature.r)
          (ctx.frOfNat inst.signature.w)⁻¹ (ctx.fpOfNat inst.pubkey_x) =
        .ok (some (ctx.mkPoint (ctx.fpOfNat inst.pubkey_x) y1))) ∧
    (∀ x1 x0 : F,
      verify_candidate ctx (ctx.fpOfNat inst.message)
          (ctx.fpOfNat inst.signature.r) (ctx.frOfNat inst.signature.w)
          (ctx.mkPoint (ctx.fpOfNat inst.pubkey_x) y1) = some x1 →
      ctx.fpOfNat inst.signature.r ≠ x1 →
      verify_candidate ctx (ctx.fpOfNat inst.message)
          (ctx.fpOfNat inst.signature.r) (ctx.frOfNat inst.signature.w)
          (ctx.mkPoint (ctx.fpOfNat inst.pubkey_x) y0) = some x0 →
      ctx.fpOfNat inst.signature.r = x0 →
      verify ctx (ctx.fpOfNat inst.message) (ctx.fpOfNat inst.signature.r)
          (ctx.frOfNat inst.signature.w)⁻¹ (ctx.fpOfNat inst.pubkey_x) =
        .ok (some (ctx.mkPoint (ctx.fpOfNat inst.pubkey_x) y0))) := by
  have hsne : (ctx.frOfNat inst.signature.w)⁻¹ ≠ 0 := inv_ne_zero hw
  have hinv : ((ctx.frOfNat inst.signature.w)⁻¹)⁻¹ = ctx.frOfNat inst.signature.w :=
    inv_inv _
  refine ⟨?_, ?_, ?_⟩
  · intro x1 x0 hc1 hc0 hr1 hr0
    have hv : verify ctx (ctx.fpOfNat inst.message) (ctx.fpOfNat inst.signature.r)
        (ctx.frOfNat inst.signature.w)⁻¹ (ctx.fpOfNat inst.pubkey_x) = .ok none := by
      unfold verify
      simp only [if_neg hsne, hys, hinv, hc1, if_neg hr1, hc0, if_neg hr0]
    unfold InstanceTrace.new
    rw [if_neg hw, hv]
  · intro x1 hc1 hr1
    unfold verify
    simp only [if_neg hsne, hys, hinv, hc1, if_pos hr1]
  · intro x1 x0 hc1 hr1 hc0 hr0
    unfold verify
    simp only [if_neg hsne, hys, hinv, hc1, if_neg hr1, hc0, if_pos hr0]

set_option maxRecDepth 1000000 in
open Ecdsa in
/-- C3 witness: on the toy instance the pubkey x-coordinate is on the curve,
`w` is invertible, the first candidate's verification x-coordinate equals
`r`, and `verify` accepts that first candidate as the public key. -/
theorem C3_witness :
    toyCtx.ysFromX (toyCtx.fpOfNat toyInstance.pubkey_x) = some (0, 0) ∧
    toyCtx.frOfNat toyInstance.signature.w ≠ 0 ∧
    verify_candidate toyCtx (toyCtx.fpOfNat toyInstance.message)
        (toyCtx.fpOfNat toyInstance.signature.r)
        (toyCtx.frOfNat toyInstance.signature.w)
        (toyCtx.mkPoint (toyCtx.fpOfNat toyInstance.pubkey_x) 0) = some 2 ∧
    verify toyCtx (toyCtx.fpOfNat toyInstance.message)
        (toyCtx.fpOfNat toyInstance.signature.r)
        (toyCtx.frOfNat toyInstance.signature.w)⁻¹
        (toyCtx.fpOfNat toyInstance.pubkey_x) =
      .ok (some (toyCtx.mkPoint (toyCtx.fpOfNat toyInstance.pubkey_x) 0)) :=
  ⟨by rfl, by decide, by rfl,
    (C3_invalid_signature toyCtx toyInstance 0 0 (by rfl) (by decide)).2.1 2
      (by rfl) (by rfl)⟩

namespace Ecdsa

section Builder

variable {P F K : Type} [AddCommGroup P] [DecidableEq P] [Field F] [DecidableEq F]
variable [Field K] [DecidableEq K]

/-- Alignment of the two loops: whenever the while loop of
`mimic_ec_mult_air` (with adequate fuel) hits the degenerate x-coordinate
collision, the 256-iteration loop of `gen_ec_mult_steps`, which walks the
same partial-sum/point trajectory bit by bit, fails with the degenerate
error. -/
theorem mimic_gen_align (ctx : EcdsaCtx P F K) (x : ℕ) :
    ∀ (fuel : ℕ), ∀ (n i : ℕ) (point ps : P),
      x >>> i < 2 ^ fuel → x >>> i < 2 ^ n →
      mimic_loop ctx fuel (x >>> i) point ps = none →
      gen_loop ctx x i n point ps = .error .degenerateEcOp := by
  intro fuel
  induction fuel with
  | zero =>
      intro n i pt ps h1 h2 hm
      have h0 : x >>> i = 0 := Nat.lt_one_iff.mp (by simpa using h1)
      rw [h0] at hm
      simp [mimic_loop] at hm
  | succ fuel ih =>
      intro n i pt ps h1 h2 hm
      by_cases h0 : x >>> i = 0
      · simp [mimic_loop, h0] at hm
      · cases n with
        | zero =>
            exact absurd (Nat.lt_one_iff.mp (by simpa using h2)) h0
        | succ n =>
            simp only [mimic_loop, if_neg h0] at hm
            by_cases hx : ctx.xcoord ps = ctx.xcoord pt
            · simp only [gen_loop, if_pos hx]
            · simp only [if_neg hx] at hm
              have hdiv : x >>> i / 2 = x >>> (i + 1) :=
                (Nat.shiftRight_succ x i).symm
              rw [hdiv] at hm
              have hb1 : x >>> (i + 1) < 2 ^ fuel := by
                rw [← hdiv, Nat.div_lt_iff_lt_mul (by norm_num : (0 : ℕ) < 2)]
                calc x >>> i < 2 ^ (fuel + 1) := h1
                  _ = 2 ^ fuel * 2 := by ring
              have hb2 : x >>> (i + 1) < 2 ^ n := by
                rw [← hdiv, Nat.div_lt_iff_lt_mul (by norm_num : (0 : ℕ) < 2)]
                calc x >>> i < 2 ^ (n + 1) := h2
                  _ = 2 ^ n * 2 := by ring
              have hrec := ih n (i + 1) (pt + pt)
                (if x >>> i % 2 = 1 then ps + pt else ps) hb1 hb2 hm
              simp only [gen_loop, if_neg hx, hrec]
              rfl

end Builder

end Ecdsa

open Ecdsa in
/-- C4 counterexample: with the in-range scalar 1, base point 1 and shift
point 3 (in the toy collaborator instance), `mimic_ec_mult_air` succeeds
(it stops once the remaining scalar is zero, returning `3 + 1 = 4`) while
`gen_ec_mult_steps` fails with the degenerate error: at iteration 2 the
accumulated sum 4 collides with the doubled base point `2^2 = 4` — an
iteration past the scalar's top bit that only the 256-iteration loop
examines.  The two computations therefore do not classify the same triples
as degenerate. -/
theorem C4_counterexample :
    (1 : ℕ) ≠ 0 ∧ (1 : ℕ) < 2 ^ 251 ∧
    mimic_ec_mult_air toyCtx 1 (1 : ℤ) 3 = some 4 ∧
    gen_ec_mult_steps toyCtx 1 (1 : ℤ) 3 = .error .degenerateEcOp :=
  ⟨by norm_num, by norm_num, by decide, by rfl⟩

open Ecdsa in
/-- C4 (amended): for every scalar in range and every base and shift point,
whenever `mimic_ec_mult_air` classifies the triple as degenerate,
`gen_ec_mult_steps` fails with the degenerate error as well; the converse
does not hold, because the trace loop always runs 256 iterations and also
checks the collision in iterations past the scalar's top bit, where the
verification loop has already stopped. -/
theorem C4_mimic_degenerate_implies_gen {P F K : Type} [AddCommGroup P]
    [DecidableEq P] [Field F] [DecidableEq F] [Field K] [DecidableEq K]
    (ctx : EcdsaCtx P F K) (m : ℕ) (point shift_point : P)
    (h0 : m ≠ 0) (hr : m < 2 ^ 251)
    (hm : mimic_ec_mult_air ctx m point shift_point = none) :
    gen_ec_mult_steps ctx m point shift_point = .error .degenerateEcOp := by
  have hguard : ¬(m = 0 ∨ 2 ^ 251 ≤ m) := by
    push_neg
    exact ⟨h0, by omega⟩
  rw [mimic_ec_mult_air, if_neg hguard] at hm
  rw [gen_ec_mult_steps, if_neg h0, if_neg (by omega : ¬ 2 ^ 251 ≤ m)]
  have h252 : (2 : ℕ) ^ 251 ≤ 2 ^ FP_MODULUS_BIT_SIZE := by
    norm_num [FP_MODULUS_BIT_SIZE]
  have h256 : (2 : ℕ) ^ 251 ≤ 2 ^ 256 := by norm_num
  refine mimic_gen_align ctx m FP_MODULUS_BIT_SIZE 256 0 point shift_point ?_ ?_ ?_
  · rw [Nat.shiftRight_zero]
    omega
  · rw [Nat.shiftRight_zero]
    omega
  · rw [Nat.shiftRight_zero]
    exact hm

open Ecdsa in
/-- C4 witness: a triple degenerate at iteration 0 is rejected by both
computations. -/
theorem C4_witness :
    ((1 : ℕ) ≠ 0 ∧ (1 : ℕ) < 2 ^ 251 ∧
      mimic_ec_mult_air toyCtx 1 (1 : ℤ) 1 = none) ∧
    gen_ec_mult_steps toyCtx 1 (1 : ℤ) 1 = .error .degenerateEcOp :=
  ⟨⟨by norm_num, by norm_num, by decide⟩,
    C4_mimic_degenerate_implies_gen toyCtx 1 1 1 (by norm_num) (by norm_num)
      (by decide)⟩
